import Mathlib

/-!
Verification development for the sequential translation pipeline of
`TransCYPlate_gemma3n_v1_0_18.py`.

Python strings are modelled as `List Char` (`Str`), Python `int` as `Int`.
A CSV file is modelled at the granularity the program manipulates it:
as the list of its rows, each row a list of field strings (the stdlib
`csv` writer/reader pair is a deterministic, invertible serialization of
such row lists, so row-list equality coincides with byte equality of the
persisted file).  Fallible external effects (the LM Studio client,
filesystem writes, UI dispatch) are modelled as `Except`-valued oracles.
-/

abbrev Str := List Char

def toL (s : String) : Str := s.toList

/-- Whitespace test used by the model of Python `str.strip` and of the
regex class `\s` (the ASCII whitespace characters). -/
def pyIsSpace (c : Char) : Bool :=
  c == ' ' || c == '\t' || c == '\n' || c == '\r' || c == '\x0b' || c == '\x0c'

/-- Model of Python `str.strip()` (both ends). -/
def pyStrip (s : Str) : Str :=
  ((s.dropWhile pyIsSpace).reverse.dropWhile pyIsSpace).reverse

/-- Model of Python `str.lower()` (ASCII letters, which is all the header
cells of word.csv contain). -/
def pyLower (s : Str) : Str := s.map Char.toLower

def isDigitChar (c : Char) : Bool := c.isDigit

/-- Model of Python `str.isdigit()`: nonempty and all decimal digits. -/
def pyIsdigit (s : Str) : Bool := !s.isEmpty && s.all isDigitChar

def digitVal (c : Char) : Nat := c.toNat - 48

def digitChar (n : Nat) : Char :=
  match n with
  | 0 => '0' | 1 => '1' | 2 => '2' | 3 => '3' | 4 => '4'
  | 5 => '5' | 6 => '6' | 7 => '7' | 8 => '8' | _ => '9'

def natFromDigits (ds : Str) : Nat := ds.foldl (fun a c => a * 10 + digitVal c) 0

/-- Decimal digits of `n`, least significant first (`fuel`-bounded structural
recursion; `fuel = n` always suffices). -/
def natToDigitsRev (fuel n : Nat) : Str :=
  match fuel with
  | 0 => []
  | f + 1 => if n = 0 then [] else digitChar (n % 10) :: natToDigitsRev f (n / 10)

/-- Model of Python `str(n)` for a nonnegative integer. -/
def pyStrNat (n : Nat) : Str := if n = 0 then ['0'] else (natToDigitsRev n n).reverse

/-- Model of Python `str(k)` for an `int`. -/
def pyStrInt (k : Int) : Str :=
  if k < 0 then '-' :: pyStrNat k.natAbs else pyStrNat k.toNat

def pyIntCore : Str → Option Int
  | [] => none
  | c :: ds =>
    if c = '-' then (if pyIsdigit ds then some (-(natFromDigits ds : Int)) else none)
    else if c = '+' then (if pyIsdigit ds then some ((natFromDigits ds : Int)) else none)
    else if pyIsdigit (c :: ds) then some ((natFromDigits (c :: ds) : Int)) else none

/-- Model of Python `int(s)` on strings: surrounding whitespace allowed,
optional sign, then decimal digits; `none` models the `ValueError`. -/
def pyInt (s : Str) : Option Int := pyIntCore (pyStrip s)

-- ---------- basic lemmas on the string/int primitives ----------

theorem dropWhile_of_all_false {p : Char → Bool} :
    ∀ {s : Str}, (∀ c ∈ s, p c = false) → s.dropWhile p = s := by
  intro s h
  cases s with
  | nil => rfl
  | cons a t => simp [List.dropWhile, h a (by simp)]

theorem pyStrip_of_no_space {s : Str} (h : ∀ c ∈ s, pyIsSpace c = false) :
    pyStrip s = s := by
  unfold pyStrip
  rw [dropWhile_of_all_false h, dropWhile_of_all_false (by simpa using h), List.reverse_reverse]

theorem no_space_of_digit {c : Char} (h : isDigitChar c = true) : pyIsSpace c = false := by
  by_contra h'
  have hsp : pyIsSpace c = true := by
    cases hb : pyIsSpace c
    · exact absurd hb h'
    · rfl
  simp only [pyIsSpace, Bool.or_eq_true, beq_iff_eq] at hsp
  rcases hsp with ((((h1 | h1) | h1) | h1) | h1) | h1 <;> subst h1 <;> simp [isDigitChar] at h

theorem digitChar_spec : ∀ m, m < 10 → digitVal (digitChar m) = m ∧ isDigitChar (digitChar m) = true := by
  decide

theorem natToDigitsRev_zero : ∀ f, natToDigitsRev f 0 = [] := by
  intro f
  cases f <;> simp [natToDigitsRev]

theorem natFromDigits_append_singleton (xs : Str) (c : Char) :
    natFromDigits (xs ++ [c]) = natFromDigits xs * 10 + digitVal c := by
  unfold natFromDigits
  rw [List.foldl_append]
  rfl

theorem natToDigitsRev_spec : ∀ fuel n, 0 < n → n ≤ fuel →
    natToDigitsRev fuel n ≠ [] ∧ (∀ c ∈ natToDigitsRev fuel n, isDigitChar c = true) ∧
      natFromDigits (natToDigitsRev fuel n).reverse = n := by
  intro fuel
  induction fuel with
  | zero => intro n hn hle; omega
  | succ f ih =>
    intro n hn hle
    have hne : n ≠ 0 := by omega
    have hd := digitChar_spec (n % 10) (Nat.mod_lt _ (by omega))
    simp only [natToDigitsRev, hne, if_false]
    by_cases hq : n / 10 = 0
    · rw [hq, natToDigitsRev_zero]
      refine ⟨by simp, ?_, ?_⟩
      · intro c hc
        simp at hc
        subst hc
        exact hd.2
      · have hone : natFromDigits [digitChar (n % 10)] = digitVal (digitChar (n % 10)) := by
          simp [natFromDigits]
        rw [List.reverse_singleton, hone, hd.1]
        omega
    · have hql : n / 10 ≤ f := by
        have hlt : n / 10 < n := Nat.div_lt_self hn (by omega)
        omega
      obtain ⟨hne9, hdig, hval⟩ := ih (n / 10) (by omega) hql
      refine ⟨by simp, ?_, ?_⟩
      · intro c hc
        rcases List.mem_cons.mp hc with hc | hc
        · subst hc; exact hd.2
        · exact hdig c hc
      · rw [List.reverse_cons, natFromDigits_append_singleton, hval, hd.1]
        omega

theorem pyIsdigit_iff {s : Str} :
    pyIsdigit s = true ↔ s ≠ [] ∧ ∀ c ∈ s, isDigitChar c = true := by
  cases s <;> simp [pyIsdigit]

theorem pyStrNat_spec (n : Nat) :
    pyIsdigit (pyStrNat n) = true ∧ natFromDigits (pyStrNat n) = n := by
  by_cases h : n = 0
  · subst h; decide
  · obtain ⟨hne, hdig, hval⟩ := natToDigitsRev_spec n n (by omega) (by omega)
    unfold pyStrNat
    rw [if_neg h]
    refine ⟨pyIsdigit_iff.mpr ⟨by simpa using hne, ?_⟩, hval⟩
    intro c hc
    exact hdig c (List.mem_reverse.mp hc)

theorem pyStrNat_no_space (n : Nat) : ∀ c ∈ pyStrNat n, pyIsSpace c = false := by
  intro c hc
  have h := (pyStrNat_spec n).1
  simp only [pyIsdigit, Bool.and_eq_true, List.all_eq_true] at h
  exact no_space_of_digit (h.2 c hc)

theorem pyInt_pyStrInt (k : Int) : pyInt (pyStrInt k) = some k := by
  by_cases hk : k < 0
  · have hstrip : pyStrip (pyStrInt k) = '-' :: pyStrNat k.natAbs := by
      unfold pyStrInt
      rw [if_pos hk]
      apply pyStrip_of_no_space
      intro c hc
      rcases List.mem_cons.mp hc with hc | hc
      · subst hc; decide
      · exact pyStrNat_no_space _ c hc
    unfold pyInt
    rw [hstrip]
    simp only [pyIntCore, if_pos rfl, (pyStrNat_spec k.natAbs).1, if_pos]
    rw [(pyStrNat_spec k.natAbs).2]
    congr 1
    omega
  · have hspec := pyStrNat_spec k.toNat
    have hstrip : pyStrip (pyStrInt k) = pyStrNat k.toNat := by
      unfold pyStrInt
      rw [if_neg hk]
      exact pyStrip_of_no_space (pyStrNat_no_space _)
    obtain ⟨c, ds, hcds⟩ : ∃ c ds, pyStrNat k.toNat = c :: ds := by
      cases h : pyStrNat k.toNat with
      | nil =>
        have := hspec.1
        rw [h] at this
        simp [pyIsdigit] at this
      | cons c ds => exact ⟨c, ds, rfl⟩
    have hcdig : isDigitChar c = true := by
      have := hspec.1
      rw [hcds] at this
      simp only [pyIsdigit, Bool.and_eq_true, List.all_eq_true] at this
      exact this.2 c (by simp)
    have hcm : c ≠ '-' := by
      intro h; rw [h] at hcdig; simp [isDigitChar] at hcdig
    have hcp : c ≠ '+' := by
      intro h; rw [h] at hcdig; simp [isDigitChar] at hcdig
    unfold pyInt
    rw [hstrip, hcds]
    show (if c = '-' then (if pyIsdigit ds then some (-(natFromDigits ds : Int)) else none)
      else if c = '+' then (if pyIsdigit ds then some ((natFromDigits ds : Int)) else none)
      else if pyIsdigit (c :: ds) then some ((natFromDigits (c :: ds) : Int)) else none) = some k
    rw [if_neg hcm, if_neg hcp, if_pos (by rw [← hcds]; exact hspec.1)]
    rw [← hcds, hspec.2]
    congr 1
    omega

-- ---------- result extraction (source lines 98-106) ----------

/-- Python `s[i:i+len t] == t`: does `t` occur in `s` starting at `i`? -/
def subAt (s t : Str) (i : Nat) : Bool := (s.drop i).take t.length == t

/-- Highest `j ≤ i` with `subAt s t j`, scanning downwards. -/
def rfindFrom (s t : Str) : Nat → Option Nat
  | 0 => if subAt s t 0 then some 0 else none
  | i + 1 => if subAt s t (i + 1) then some (i + 1) else rfindFrom s t i

/-- Model of Python `s.rfind(t)` for nonempty `t` (`none` for `-1`). -/
def pyRfind (s t : Str) : Option Nat := rfindFrom s t s.length

/-- The integer value Python `rfind` returns (`-1` when absent). -/
def pyRfindInt (s t : Str) : Int :=
  match pyRfind s t with
  | some k => (k : Int)
  | none => -1

/-- Parse one control token `<|`, one or more non-bar characters, `|>`;
returns the remainder.  Models one repetition of the regex group
`<\x7c[^\x7c]+\x7c>` of line 105 (greedy, no backtracking possible). -/
def parseOneCtl (s : Str) : Option Str :=
  match s with
  | '<' :: '|' :: rest =>
    let body := rest.takeWhile (fun c => !(c == '|'))
    let rest2 := rest.dropWhile (fun c => !(c == '|'))
    if body.isEmpty then none
    else
      match rest2 with
      | '|' :: '>' :: r => some r
      | _ => none
  | _ => none

/-- Consume as many consecutive control tokens as possible (fuel-bounded;
each token is at least 4 characters, so `fuel = s.length` suffices). -/
def parseManyCtl : Nat → Str → Str
  | 0, s => s
  | f + 1, s =>
    match parseOneCtl s with
    | none => s
    | some r => parseManyCtl f r

/-- Model of `re.sub(r'^\s*(?:<\x7c[^\x7c]+\x7c>)+', '', out, flags=re.S)`
(line 105): remove leading whitespace followed by at least one bracketed
control token; if no token follows the whitespace the regex does not match
and nothing is removed. -/
def stripCtl (s : Str) : Str :=
  let afterWs := s.dropWhile pyIsSpace
  match parseOneCtl afterWs with
  | none => s
  | some r => parseManyCtl r.length r

/-- The `tokens` list of `extract_final_message_only` (line 99). -/
def TOKENS : List Str :=
  [toL "final<|message|>",
   toL "<|channel|>final<|message|>",
   toL "<|start|>assistant<|channel|>final<|message|>"]

/-- Model of `extract_final_message_only` (lines 98-106): pick the token
occurrence with the greatest start index (`rfind` loop), keep the text after
it, strip leading control tokens, trim. -/
def extract_final_message_only (s : Str) : Str :=
  let step : (Int × Str) → Str → (Int × Str) := fun acc t =>
    let i := pyRfindInt s t
    if acc.1 < i then (i, t) else acc
  let lastp := TOKENS.foldl step (-1, [])
  let out := if lastp.1 = -1 then s else s.drop (lastp.1.toNat + lastp.2.length)
  pyStrip (stripCtl out)

/-- The inline error format `f"(error) {e}"` used on client failure
(lines 632, 792, 1004), with the exception rendered as its message. -/
def errFmt (e : Str) : Str := toL "(error) " ++ e

/-- Model of `_ask_word` (lines 786-793).  The client call is an
`Except`-valued oracle; the `try` block substitutes the inline error string,
so this function is total.  The trailing `or ""` of line 793 yields the
empty string when the extraction is empty. -/
def ask_word (resp : Except Str Str) : Str :=
  let raw :=
    match resp with
    | .ok res => res
    | .error e => errFmt e
  let out := extract_final_message_only raw
  if out = [] then [] else out

/-- The sentence-pipeline result post-processing of line 635:
`extract_final_message_only(raw) or raw.strip()`. -/
def sentence_final (raw : Str) : Str :=
  let f := extract_final_message_only raw
  if f = [] then pyStrip raw else f

-- ---------- word.csv store (source lines 125-193) ----------

/-- One value of the word dictionary:
`{"en":..., "ja":..., "count":int, "skip":0/1}`. -/
structure WRec where
  en : Str
  ja : Str
  count : Int
  skip : Int
  deriving DecidableEq, Repr

/-- The in-memory word dictionary, in Python dict insertion order. -/
abbrev WordDB := List (Str × WRec)

/-- A CSV row as passed to / received from the stdlib csv layer. -/
abbrev Row := List Str

/-- Python dict lookup `db.get(w)`. -/
def dbGet (w : Str) : WordDB → Option WRec
  | [] => none
  | (w2, r) :: t => if w2 = w then some r else dbGet w t

/-- Python dict assignment `db[w] = r`: replace in place if present,
else append. -/
def dbSet (w : Str) (r : WRec) : WordDB → WordDB
  | [] => [(w, r)]
  | (w2, r2) :: t => if w2 = w then (w, r) :: t else (w2, r2) :: dbSet w r t

/-- `WORD_HEADER = ["word", "en", "ja", "count", "skip"]` (line 128). -/
def WORD_HEADER : Row := [toL "word", toL "en", toL "ja", toL "count", toL "skip"]

/-- The row written for one entry by `save_word_db` (line 193). -/
def rowOf (e : Str × WRec) : Row :=
  [e.1, e.2.en, e.2.ja, pyStrInt e.2.count, pyStrInt e.2.skip]

/-- The comparison induced by `sorted(db.items(), key=lambda x:
(-x[1].get("count",0), x[0]))` (line 191): count descending, then word
ascending in code-point lexicographic order. -/
def strLtB : Str → Str → Bool
  | [], [] => false
  | [], _ :: _ => true
  | _ :: _, [] => false
  | c :: s, d :: t => if c < d then true else if c = d then strLtB s t else false

def keyLeB (a b : Str × WRec) : Bool :=
  decide (b.2.count < a.2.count) ||
    (decide (a.2.count = b.2.count) && (strLtB a.1 b.1 || decide (a.1 = b.1)))

def entryLe (a b : Str × WRec) : Prop := keyLeB a b = true

instance : DecidableRel entryLe :=
  fun a b => inferInstanceAs (Decidable (keyLeB a b = true))

/-- `sorted(db.items(), key=...)` of line 191. -/
def sortDB (db : WordDB) : WordDB := List.insertionSort entryLe db

/-- Model of `save_word_db` (lines 187-193): the rows written to word.csv,
header first, then one row per entry in sorted order. -/
def save_word_db (db : WordDB) : List Row :=
  WORD_HEADER :: (sortDB db).map rowOf

/-- The header cells as compared on line 140:
`[c.strip().lower() for c in rows[0]]`. -/
def parsedHeader (hdr : Row) : Row := hdr.map (fun c => pyLower (pyStrip c))

/-- The legacy-branch count parse of line 146:
`int(row[1]) if len(row)>1 and row[1].isdigit() else 0`. -/
def legacy_count (row : Row) : Int :=
  if 1 < row.length ∧ pyIsdigit (row.getD 1 []) = true
  then (natFromDigits (row.getD 1 []) : Int) else 0

/-- One row of the legacy `["word","count"]` branch (lines 143-147). -/
def legacyStep (db : WordDB) (row : Row) : WordDB :=
  if row = [] then db
  else dbSet (pyStrip (row.getD 0 [])) ⟨[], [], legacy_count row, 0⟩ db

/-- One row of the `header[:4] == ["word","en","ja","count"]` branch
(lines 150-160).  Note the strict `row[4] in ("0","1")` test for the skip
column there. -/
def fourColStep (db : WordDB) (row : Row) : WordDB :=
  if row = [] then db
  else
    let w := pyStrip (row.getD 0 [])
    let en := if 1 < row.length then pyStrip (row.getD 1 []) else []
    let ja := if 2 < row.length then pyStrip (row.getD 2 []) else []
    let cnt : Int := if 3 < row.length then (pyInt (row.getD 3 [])).getD 0 else 0
    let sk : Int :=
      if 4 < row.length ∧ (row.getD 4 [] = toL "0" ∨ row.getD 4 [] = toL "1")
      then (pyInt (row.getD 4 [])).getD 0 else 0
    dbSet w ⟨en, ja, cnt, sk⟩ db

/-- One row of the 5-column branch (lines 163-172) and of the fallback
branch (lines 175-184), whose bodies are identical in the source:
skip accepted when `str(row[4]).strip().isdigit()`. -/
def fiveColStep (db : WordDB) (row : Row) : WordDB :=
  if row = [] then db
  else
    let w := pyStrip (row.getD 0 [])
    let en := if 1 < row.length then pyStrip (row.getD 1 []) else []
    let ja := if 2 < row.length then pyStrip (row.getD 2 []) else []
    let cnt : Int := if 3 < row.length then (pyInt (row.getD 3 [])).getD 0 else 0
    let sk : Int :=
      if 4 < row.length ∧ pyIsdigit (pyStrip (row.getD 4 [])) = true
      then (pyInt (row.getD 4 [])).getD 0 else 0
    dbSet w ⟨en, ja, cnt, sk⟩ db

/-- Model of `load_word_db` (lines 130-185).  `none` models an absent file.
The branch order is the source's: because the canonical 5-column header
also satisfies `header[:4] == ["word","en","ja","count"]`, canonical files
are parsed by the 4-column branch and the 5-column branch is unreachable
for them. -/
def load_word_db : Option (List Row) → WordDB
  | none => []
  | some [] => []
  | some (hdr :: body) =>
    let header := parsedHeader hdr
    if header = [toL "word", toL "count"] then
      body.foldl legacyStep []
    else if header.take 4 = [toL "word", toL "en", toL "ja", toL "count"] then
      body.foldl fourColStep []
    else if header.take 5 = WORD_HEADER then
      body.foldl fiveColStep []
    else
      body.foldl fiveColStep []

-- ---------- sentence pipeline and pending-record reconciler ----------

inductive Lang where
  | en | ja | es | fr
  deriving DecidableEq, Repr

/-- One pending record, `{"de": text, "ja": None, "en": None, "es": None,
"fr": None}` (line 735). -/
structure Pending where
  de : Str
  ja : Option Str
  en : Option Str
  es : Option Str
  fr : Option Str
  deriving DecidableEq, Repr

def Pending.set (p : Pending) (lang : Lang) (text : Str) : Pending :=
  match lang with
  | .ja => { p with ja := some text }
  | .en => { p with en := some text }
  | .es => { p with es := some text }
  | .fr => { p with fr := some text }

/-- `x or ""` on an optional string (line 779). -/
def orEmpty : Option Str → Str
  | some s => s
  | none => []

/-- The state touched by `_apply_translate_result`: the `self.pending`
dict, the archive.csv data rows, and the display lines appended
(busy-indicator bookkeeping of `done_status` is not modelled). -/
structure SentState where
  pending : Str → Option Pending
  archive : List Row
  displayLines : List (Str × Lang)

/-- Model of `_apply_translate_result` (lines 768-783): append the display
line, store the stage text in the pending record, and when both `ja` and
`en` are present append one archive row and drop the record. -/
def apply_translate_result (st : SentState) (ts14 : Str) (lang : Lang) (text : Str) :
    SentState :=
  let st1 := { st with displayLines := st.displayLines ++ [(text, lang)] }
  match st1.pending ts14 with
  | none => st1
  | some d0 =>
    let d := d0.set lang text
    if d.ja.isSome ∧ d.en.isSome then
      { st1 with
        pending := fun k => if k = ts14 then none else st1.pending k
        archive := st1.archive ++
          [[ts14, d.de, orEmpty d.ja, orEmpty d.en, orEmpty d.es, orEmpty d.fr]] }
    else
      { st1 with pending := fun k => if k = ts14 then some d else st1.pending k }

-- ---------- word pipeline ----------

/-- `int(db.get(word, {}).get("count", 0))` (line 665). -/
def prev_count (db : WordDB) (word : Str) : Int :=
  match dbGet word db with
  | some r => r.count
  | none => 0

/-- `int(db.get(word, {}).get("skip", 0))` (line 666). -/
def prev_skip (db : WordDB) (word : Str) : Int :=
  match dbGet word db with
  | some r => r.skip
  | none => 0

/-- The store update of one word task (lines 664-667):
`db[word] = {"en": en, "ja": ja, "count": prev + 1, "skip": sk}`. -/
def word_task_update (db : WordDB) (word en ja : Str) : WordDB :=
  dbSet word ⟨en, ja, prev_count db word + 1, prev_skip db word⟩ db

/-- `new = 0 if cur == 1 else 1` (line 896). -/
def flip_skip (v : Int) : Int := if v = 1 then 0 else 1

/-- Model of the store effect of `on_toggle_skip` (lines 878-901): for a
word present in the loaded store, flip its skip flag and save; for an
absent word an error dialog is shown and nothing is written. -/
def on_toggle_skip (db : WordDB) (word : Str) : WordDB :=
  match dbGet word db with
  | none => db
  | some info => dbSet word ⟨info.en, info.ja, info.count, flip_skip info.skip⟩ db

/-- The word-flash pacing sleep of lines 672-675: given the shared
`_last_wordflash_time` and the current clock sample, how long the worker
sleeps before notifying.  Time is idealized as rationals. -/
def sleepFor (last now : ℚ) : ℚ := if now - last < 2 then 2 - (now - last) else 0

-- ---------- worker loop iterations as fallible computations ----------

/-- A word task `{"model_name": ..., "word": ..., "cfg": ...}` (line 650);
the generation config is forwarded verbatim to the external client, which
is modelled by the environment oracles, so it carries no state here. -/
structure WordTask where
  model_name : Str
  word : Str

/-- The effect oracles one word-worker iteration consumes.  `Except.error`
models the call raising an exception. -/
structure WordEnv where
  respondEn : Except Str Str
  respondJa : Except Str Str
  loadRes : Except Str WordDB
  saveRes : Except Str Unit
  showRes : Except Str Unit
  pngRes : Except Str Unit
  refreshRes : Except Str Unit

structure WordOut where
  db : WordDB
  count_now : Int
  flashed : Bool
  deriving DecidableEq, Repr

/-- Model of one iteration of `_word_worker_queue` (lines 650-699) after a
task is dequeued.  The two `_ask_word` calls sit inside a `try` block
(lines 657-662) but are already total; the store load (line 664), store
save (line 668) and the UI `after` dispatches (lines 681, 693) are not
inside any `try`, so their failures propagate out of the loop body.  The
PNG capture (lines 683-687) is guarded by `try/except: pass`.  The pacing
sleep of lines 671-676 is pure time arithmetic (`sleepFor`) and cannot
raise. -/
def wordIteration (task : WordTask) (env : WordEnv) : Except Str WordOut :=
  let en := ask_word env.respondEn
  let ja := ask_word env.respondJa
  match env.loadRes with
  | .error e => .error e
  | .ok db =>
    let db2 := word_task_update db task.word en ja
    match env.saveRes with
    | .error e => .error e
    | .ok _ =>
      let count_now := prev_count db task.word + 1
      if prev_skip db task.word = 0 then
        match env.showRes with
        | .error e => .error e
        | .ok _ =>
          let _png : Unit :=
            if count_now = 1 then
              (match env.pngRes with
               | .ok _ => ()
               | .error _ => ())
            else ()
          match env.refreshRes with
          | .error e => .error e
          | .ok _ => .ok ⟨db2, count_now, true⟩
      else
        match env.refreshRes with
        | .error e => .error e
        | .ok _ => .ok ⟨db2, count_now, false⟩

structure SentenceTask where
  model_name : Str
  prompt : Str
  ts14 : Str
  lang : Lang
  log_path : Str
  de_text : Str

structure SentenceEnv where
  respond : Except Str Str
  writeLogRes : Except Str Unit
  applyRes : Except Str Unit

structure SentenceOut where
  raw : Str
  final : Str
  forwarded : Str × Lang × Str
  deriving DecidableEq, Repr

/-- Model of one iteration of `_sentence_worker` (lines 613-639) after a
task is dequeued.  The client call sits in a `try` block whose handler
substitutes `errFmt` (lines 625-632); the raw-response log write
(`write_text`, line 634) and the `after` dispatch of the result to
`_apply_translate_result` (line 636) are unguarded. -/
def sentenceIteration (task : SentenceTask) (env : SentenceEnv) :
    Except Str SentenceOut :=
  let raw :=
    match env.respond with
    | .ok res => res
    | .error e => errFmt e
  match env.writeLogRes with
  | .error e => .error e
  | .ok _ =>
    let final := sentence_final raw
    match env.applyRes with
    | .error e => .error e
    | .ok _ => .ok ⟨raw, final, (task.ts14, task.lang, final)⟩

def isOkE {ε α : Type} : Except ε α → Bool
  | .ok _ => true
  | .error _ => false

-- ---------- dictionary lemmas ----------

theorem dbGet_dbSet_self (w : Str) (r : WRec) : ∀ db, dbGet w (dbSet w r db) = some r := by
  intro db
  induction db with
  | nil => simp [dbSet, dbGet]
  | cons e t ih =>
    obtain ⟨w2, r2⟩ := e
    by_cases h : w2 = w
    · simp [dbSet, dbGet, h]
    · simp [dbSet, dbGet, h, ih]

theorem dbGet_dbSet_ne (w w2 : Str) (r : WRec) (hne : w2 ≠ w) :
    ∀ db, dbGet w2 (dbSet w r db) = dbGet w2 db := by
  have hne2 : w ≠ w2 := Ne.symm hne
  intro db
  induction db with
  | nil => simp [dbSet, dbGet, hne2]
  | cons e t ih =>
    obtain ⟨w3, r3⟩ := e
    by_cases h : w3 = w
    · subst h
      simp [dbSet, dbGet, hne2]
    · simp [dbSet, dbGet, h, ih]

theorem mem_dbSet {e : Str × WRec} {w : Str} {r : WRec} :
    ∀ {db : WordDB}, e ∈ dbSet w r db → e = (w, r) ∨ e ∈ db := by
  intro db
  induction db with
  | nil => simp [dbSet]
  | cons e2 t ih =>
    obtain ⟨w2, r2⟩ := e2
    by_cases h : w2 = w
    · simp only [dbSet, if_pos h]
      intro hm
      rcases List.mem_cons.mp hm with h1 | h1
      · exact Or.inl h1
      · exact Or.inr (List.mem_cons_of_mem _ h1)
    · simp only [dbSet, if_neg h]
      intro hm
      rcases List.mem_cons.mp hm with h1 | h1
      · rw [h1]
        exact Or.inr (List.mem_cons_self _ _)
      · rcases ih h1 with h2 | h2
        · exact Or.inl h2
        · exact Or.inr (List.mem_cons_of_mem _ h2)

theorem dbSet_of_not_mem {w : Str} {r : WRec} :
    ∀ {db : WordDB}, w ∉ db.map Prod.fst → dbSet w r db = db ++ [(w, r)] := by
  intro db
  induction db with
  | nil => simp [dbSet]
  | cons e t ih =>
    obtain ⟨w2, r2⟩ := e
    intro h
    simp only [List.map_cons, List.mem_cons] at h
    push_neg at h
    simp [dbSet, Ne.symm h.1, ih h.2]

theorem dbGet_of_mem_nodup {w : Str} {r : WRec} :
    ∀ {db : WordDB}, (db.map Prod.fst).Nodup → (w, r) ∈ db → dbGet w db = some r := by
  intro db
  induction db with
  | nil => simp
  | cons e t ih =>
    obtain ⟨w2, r2⟩ := e
    intro hnd hmem
    simp only [List.map_cons, List.nodup_cons] at hnd
    rcases List.mem_cons.mp hmem with h | h
    · injection h with h1 h2
      subst h1
      subst h2
      simp [dbGet]
    · have hw : w2 ≠ w := by
        intro hq
        exact hnd.1 (hq ▸ (List.mem_map.mpr ⟨(w, r), h, rfl⟩))
      simp [dbGet, hw, ih hnd.2 h]

theorem foldl_dbSet_fresh :
    ∀ (l : WordDB) (acc : WordDB), (l.map Prod.fst).Nodup →
      (∀ w ∈ l.map Prod.fst, w ∉ acc.map Prod.fst) →
      l.foldl (fun db e => dbSet e.1 e.2 db) acc = acc ++ l := by
  intro l
  induction l with
  | nil => intro acc _ _; simp
  | cons e t ih =>
    obtain ⟨w, r⟩ := e
    intro acc hnd hdisj
    simp only [List.map_cons, List.nodup_cons] at hnd
    have hw : w ∉ acc.map Prod.fst :=
      hdisj w (by simp only [List.map_cons]; exact List.mem_cons_self _ _)
    have hstep : dbSet w r acc = acc ++ [(w, r)] := dbSet_of_not_mem hw
    simp only [List.foldl_cons, hstep]
    rw [ih (acc ++ [(w, r)]) hnd.2]
    · simp
    · intro w2 hw2
      simp only [List.map_append, List.mem_append, List.map_cons, List.map_nil,
        List.mem_singleton]
      push_neg
      refine ⟨fun hq => hdisj w2 (by simp [hw2]) hq, ?_⟩
      intro hq
      exact hnd.1 (hq ▸ hw2)

-- ---------- the sort order: totality and transitivity ----------

theorem strLtB_trichotomy : ∀ a b : Str, strLtB a b = true ∨ a = b ∨ strLtB b a = true := by
  intro a
  induction a with
  | nil =>
    intro b
    cases b with
    | nil => exact Or.inr (Or.inl rfl)
    | cons d t => exact Or.inl rfl
  | cons c s ih =>
    intro b
    cases b with
    | nil => exact Or.inr (Or.inr rfl)
    | cons d t =>
      rcases lt_trichotomy c d with h | h | h
      · exact Or.inl (by simp [strLtB, h])
      · subst h
        rcases ih t with h2 | h2 | h2
        · exact Or.inl (by simp [strLtB, lt_irrefl, h2])
        · exact Or.inr (Or.inl (by rw [h2]))
        · exact Or.inr (Or.inr (by simp [strLtB, lt_irrefl, h2]))
      · exact Or.inr (Or.inr (by simp [strLtB, h]))

theorem strLtB_trans : ∀ {a b c : Str}, strLtB a b = true → strLtB b c = true →
    strLtB a c = true := by
  intro a
  induction a with
  | nil =>
    intro b c h1 h2
    cases b with
    | nil => exact absurd h1 (by simp [strLtB])
    | cons y t =>
      cases c with
      | nil => exact absurd h2 (by simp [strLtB])
      | cons z u => simp [strLtB]
  | cons x s ih =>
    intro b c h1 h2
    cases b with
    | nil => exact absurd h1 (by simp [strLtB])
    | cons y t =>
      cases c with
      | nil => exact absurd h2 (by simp [strLtB])
      | cons z u =>
        by_cases hxy : x < y
        · by_cases hyz : y < z
          · simp [strLtB, lt_trans hxy hyz]
          · by_cases hyz2 : y = z
            · subst hyz2
              simp [strLtB, hxy]
            · simp [strLtB, hyz, hyz2] at h2
        · by_cases hxy2 : x = y
          · subst hxy2
            simp only [strLtB, lt_irrefl, if_false, if_pos rfl] at h1
            by_cases hyz : x < z
            · simp [strLtB, hyz]
            · by_cases hyz2 : x = z
              · subst hyz2
                simp only [strLtB, lt_irrefl, if_false, if_pos rfl] at h2 ⊢
                exact ih h1 h2
              · simp [strLtB, hyz, hyz2] at h2
          · simp [strLtB, hxy, hxy2] at h1

theorem keyLeB_iff {a b : Str × WRec} :
    keyLeB a b = true ↔
      (b.2.count < a.2.count ∨
        (a.2.count = b.2.count ∧ (strLtB a.1 b.1 = true ∨ a.1 = b.1))) := by
  simp [keyLeB, Bool.or_eq_true, Bool.and_eq_true, decide_eq_true_iff]

instance : IsTotal (Str × WRec) entryLe where
  total a b := by
    unfold entryLe
    rw [keyLeB_iff, keyLeB_iff]
    rcases lt_trichotomy a.2.count b.2.count with h | h | h
    · exact Or.inr (Or.inl h)
    · rcases strLtB_trichotomy a.1 b.1 with h2 | h2 | h2
      · exact Or.inl (Or.inr ⟨h, Or.inl h2⟩)
      · exact Or.inl (Or.inr ⟨h, Or.inr h2⟩)
      · exact Or.inr (Or.inr ⟨h.symm, Or.inl h2⟩)
    · exact Or.inl (Or.inl h)

instance : IsTrans (Str × WRec) entryLe where
  trans a b c h1 h2 := by
    unfold entryLe at h1 h2 ⊢
    rw [keyLeB_iff] at h1 h2 ⊢
    rcases h1 with h1 | ⟨h1c, h1s⟩
    · rcases h2 with h2 | ⟨h2c, _⟩
      · exact Or.inl (lt_trans h2 h1)
      · exact Or.inl (h2c ▸ h1)
    · rcases h2 with h2 | ⟨h2c, h2s⟩
      · exact Or.inl (h1c ▸ h2)
      · refine Or.inr ⟨h1c.trans h2c, ?_⟩
        rcases h1s with h1s | h1s
        · rcases h2s with h2s | h2s
          · exact Or.inl (strLtB_trans h1s h2s)
          · exact Or.inl (h2s ▸ h1s)
        · rcases h2s with h2s | h2s
          · exact Or.inl (h1s ▸ h2s)
          · exact Or.inr (h1s.trans h2s)

-- ---------- rfind and extraction lemmas ----------

theorem subAt_iff {s t : Str} {i : Nat} :
    subAt s t i = true ↔ (s.drop i).take t.length = t := by
  simp [subAt]

theorem subAt_le_length {s t : Str} {i : Nat} (ht : t ≠ [])
    (h : subAt s t i = true) : i + t.length ≤ s.length := by
  have heq := subAt_iff.mp h
  have hlen := congrArg List.length heq
  rw [List.length_take, List.length_drop] at hlen
  have htp : 0 < t.length := List.length_pos.mpr ht
  omega

theorem subAt_suffix {s pre suf : Str} {i : Nat}
    (h : subAt s (pre ++ suf) i = true) : subAt s suf (i + pre.length) = true := by
  have heq := subAt_iff.mp h
  rw [List.length_append] at heq
  apply subAt_iff.mpr
  have hdd : s.drop (i + pre.length) = (s.drop i).drop pre.length := by
    rw [List.drop_drop]
  rw [hdd]
  have hdt := List.drop_take (pre.length + suf.length) pre.length (s.drop i)
  rw [heq, List.drop_left, Nat.add_sub_cancel_left] at hdt
  exact hdt.symm

theorem rfindFrom_spec_some {s t : Str} :
    ∀ i j, rfindFrom s t i = some j →
      subAt s t j = true ∧ j ≤ i ∧ ∀ k, j < k → k ≤ i → subAt s t k = false := by
  intro i
  induction i with
  | zero =>
    intro j h
    by_cases h0 : subAt s t 0 = true
    · simp only [rfindFrom, h0, if_true, Option.some.injEq] at h
      subst h
      exact ⟨h0, Nat.le_refl 0, fun k hk1 hk2 => by omega⟩
    · simp [rfindFrom, h0] at h
  | succ i ih =>
    intro j h
    by_cases hs : subAt s t (i + 1) = true
    · simp only [rfindFrom, hs, if_true, Option.some.injEq] at h
      subst h
      exact ⟨hs, Nat.le_refl _, fun k hk1 hk2 => by omega⟩
    · simp only [rfindFrom, hs, if_false] at h
      obtain ⟨h1, h2, h3⟩ := ih j h
      refine ⟨h1, by omega, ?_⟩
      intro k hk1 hk2
      by_cases hk : k ≤ i
      · exact h3 k hk1 hk
      · have : k = i + 1 := by omega
        subst this
        exact Bool.not_eq_true _ ▸ (by simpa using hs)

theorem rfindFrom_spec_none {s t : Str} :
    ∀ i, rfindFrom s t i = none → ∀ k, k ≤ i → subAt s t k = false := by
  intro i
  induction i with
  | zero =>
    intro h k hk
    have hk0 : k = 0 := by omega
    subst hk0
    by_cases h0 : subAt s t 0 = true
    · simp [rfindFrom, h0] at h
    · simpa using h0
  | succ i ih =>
    intro h k hk
    by_cases hs : subAt s t (i + 1) = true
    · simp [rfindFrom, hs] at h
    · simp only [rfindFrom, hs, if_false] at h
      by_cases hki : k ≤ i
      · exact ih h k hki
      · have : k = i + 1 := by omega
        subst this
        simpa using hs

theorem pyRfind_none {s t : Str} (ht : t ≠ []) (h : pyRfind s t = none) :
    ∀ k, subAt s t k = false := by
  intro k
  by_cases hk : k ≤ s.length
  · exact rfindFrom_spec_none s.length h k hk
  · by_contra hc
    have hT : subAt s t k = true := by
      cases hb : subAt s t k
      · exact absurd hb hc
      · rfl
    have := subAt_le_length ht hT
    have htp : 0 < t.length := List.length_pos.mpr ht
    omega

theorem pyRfind_some {s t : Str} (ht : t ≠ []) {j : Nat} (h : pyRfind s t = some j) :
    subAt s t j = true ∧ ∀ k, j < k → subAt s t k = false := by
  obtain ⟨h1, _, h3⟩ := rfindFrom_spec_some s.length j h
  refine ⟨h1, ?_⟩
  intro k hk
  by_cases hkl : k ≤ s.length
  · exact h3 k hk hkl
  · by_contra hc
    have hT : subAt s t k = true := by
      cases hb : subAt s t k
      · exact absurd hb hc
      · rfl
    have := subAt_le_length ht hT
    have htp : 0 < t.length := List.length_pos.mpr ht
    omega

theorem extract_eq_some {s : Str} {k : Nat}
    (h : pyRfind s (toL "final<|message|>") = some k) :
    extract_final_message_only s = pyStrip (stripCtl (s.drop (k + 16))) := by
  obtain ⟨hocc, hmax⟩ := pyRfind_some (t := toL "final<|message|>") (by decide) h
  have hI1 : pyRfindInt s (toL "final<|message|>") = (k : Int) := by
    simp [pyRfindInt, h]
  have hb2 : ∀ k2, pyRfind s (toL "<|channel|>final<|message|>") = some k2 → k2 ≤ k := by
    intro k2 hk2
    obtain ⟨hocc2, _⟩ :=
      pyRfind_some (t := toL "<|channel|>final<|message|>") (by decide) hk2
    have hsplit : toL "<|channel|>final<|message|>" =
        toL "<|channel|>" ++ toL "final<|message|>" := by decide
    have hsf := subAt_suffix (hsplit ▸ hocc2)
    have hlen : (toL "<|channel|>").length = 11 := by decide
    rw [hlen] at hsf
    by_contra hgt
    push_neg at hgt
    have hfalse := hmax (k2 + 11) (by omega)
    rw [hfalse] at hsf
    exact Bool.noConfusion hsf
  have hb3 : ∀ k3, pyRfind s (toL "<|start|>assistant<|channel|>final<|message|>") = some k3 →
      k3 ≤ k := by
    intro k3 hk3
    obtain ⟨hocc3, _⟩ :=
      pyRfind_some (t := toL "<|start|>assistant<|channel|>final<|message|>") (by decide) hk3
    have hsplit : toL "<|start|>assistant<|channel|>final<|message|>" =
        toL "<|start|>assistant<|channel|>" ++ toL "final<|message|>" := by decide
    have hsf := subAt_suffix (hsplit ▸ hocc3)
    have hlen : (toL "<|start|>assistant<|channel|>").length = 29 := by decide
    rw [hlen] at hsf
    by_contra hgt
    push_neg at hgt
    have hfalse := hmax (k3 + 29) (by omega)
    rw [hfalse] at hsf
    exact Bool.noConfusion hsf
  have hI2 : ¬ ((k : Int) < pyRfindInt s (toL "<|channel|>final<|message|>")) := by
    unfold pyRfindInt
    cases hc : pyRfind s (toL "<|channel|>final<|message|>") with
    | none => simp; omega
    | some k2 =>
      have := hb2 k2 hc
      simp
      omega
  have hI3 : ¬ ((k : Int) <
      pyRfindInt s (toL "<|start|>assistant<|channel|>final<|message|>")) := by
    unfold pyRfindInt
    cases hc : pyRfind s (toL "<|start|>assistant<|channel|>final<|message|>") with
    | none => simp; omega
    | some k3 =>
      have := hb3 k3 hc
      simp
      omega
  have hne : ¬ ((k : Int) = -1) := by omega
  have hkt : ((k : Int)).toNat = k := by omega
  simp only [extract_final_message_only, TOKENS, List.foldl_cons, List.foldl_nil, hI1]
  rw [if_pos (by omega : (-1 : Int) < (k : Int)), if_neg hI2, if_neg hI3, if_neg hne, hkt]
  have hlen1 : (toL "final<|message|>").length = 16 := by decide
  rw [hlen1]

theorem extract_eq_none {s : Str}
    (h : pyRfind s (toL "final<|message|>") = none) :
    extract_final_message_only s = pyStrip (stripCtl s) := by
  have hall := pyRfind_none (t := toL "final<|message|>") (by decide) h
  have hI1 : pyRfindInt s (toL "final<|message|>") = -1 := by
    simp [pyRfindInt, h]
  have hc2 : pyRfind s (toL "<|channel|>final<|message|>") = none := by
    cases hc : pyRfind s (toL "<|channel|>final<|message|>") with
    | none => rfl
    | some k2 =>
      obtain ⟨hocc2, _⟩ :=
        pyRfind_some (t := toL "<|channel|>final<|message|>") (by decide) hc
      have hsplit : toL "<|channel|>final<|message|>" =
          toL "<|channel|>" ++ toL "final<|message|>" := by decide
      have hsf := subAt_suffix (hsplit ▸ hocc2)
      rw [hall (k2 + (toL "<|channel|>").length)] at hsf
      exact Bool.noConfusion hsf
  have hc3 : pyRfind s (toL "<|start|>assistant<|channel|>final<|message|>") = none := by
    cases hc : pyRfind s (toL "<|start|>assistant<|channel|>final<|message|>") with
    | none => rfl
    | some k3 =>
      obtain ⟨hocc3, _⟩ :=
        pyRfind_some (t := toL "<|start|>assistant<|channel|>final<|message|>") (by decide) hc
      have hsplit : toL "<|start|>assistant<|channel|>final<|message|>" =
          toL "<|start|>assistant<|channel|>" ++ toL "final<|message|>" := by decide
      have hsf := subAt_suffix (hsplit ▸ hocc3)
      rw [hall (k3 + (toL "<|start|>assistant<|channel|>").length)] at hsf
      exact Bool.noConfusion hsf
  have hI2 : pyRfindInt s (toL "<|channel|>final<|message|>") = -1 := by
    simp [pyRfindInt, hc2]
  have hI3 : pyRfindInt s (toL "<|start|>assistant<|channel|>final<|message|>") = -1 := by
    simp [pyRfindInt, hc3]
  simp only [extract_final_message_only, TOKENS, List.foldl_cons, List.foldl_nil,
    hI1, hI2, hI3]
  rw [if_neg (by omega : ¬ ((-1 : Int) < -1)), if_neg (by omega : ¬ ((-1 : Int) < -1)),
    if_neg (by omega : ¬ ((-1 : Int) < -1)), if_pos rfl]

-- ---------- claims ----------

/-- Claim C2: for every word W and every prior store, one word-pipeline
task for W yields a store in which the record of W has the newly obtained
en and ja translations, count equal to the previous count plus one
(previous count 0 when W was absent) and skip equal to the previous skip
flag (0 when absent), although the task itself passes no skip value; in
particular a record with count 3 and skip 1 becomes count 4, skip 1. -/
theorem claim_C2_word_update (db : WordDB) (word en ja : Str) :
    dbGet word (word_task_update db word en ja) =
      some ⟨en, ja, prev_count db word + 1, prev_skip db word⟩
    ∧ dbGet (toL "W")
        (word_task_update [(toL "W", ⟨toL "e0", toL "j0", 3, 1⟩)] (toL "W") en ja) =
      some ⟨en, ja, 4, 1⟩ := by
  constructor
  · exact dbGet_dbSet_self word _ db
  · have h1 : prev_count [(toL "W", ⟨toL "e0", toL "j0", 3, 1⟩)] (toL "W") = 3 := by decide
    have h2 : prev_skip [(toL "W", ⟨toL "e0", toL "j0", 3, 1⟩)] (toL "W") = 1 := by decide
    rw [word_task_update, h1, h2, dbGet_dbSet_self]
    norm_num

/-- Claim C8 (pacing): a paced notification happens no earlier than its
arrival time plus the sleep computed by lines 672-675 from the shared
last-notified timestamp; consequently the second of two consecutive
word-flash notifications comes at least 2 time units after the first, and
the sleep is exactly the remainder to 2 units when less has elapsed, 0
otherwise. -/
theorem claim_C8_pacing (t0 a1 b1 a2 b2 : ℚ)
    (h1 : a1 + sleepFor t0 a1 ≤ b1) (h2 : a2 + sleepFor b1 a2 ≤ b2) :
    2 ≤ b1 - t0 ∧ 2 ≤ b2 - b1
    ∧ (∀ last now : ℚ, now - last < 2 → sleepFor last now = 2 - (now - last))
    ∧ (∀ last now : ℚ, ¬ now - last < 2 → sleepFor last now = 0) := by
  have key : ∀ last now b : ℚ, now + sleepFor last now ≤ b → 2 ≤ b - last := by
    intro last now b h
    unfold sleepFor at h
    by_cases hc : now - last < 2
    · rw [if_pos hc] at h
      linarith
    · rw [if_neg hc] at h
      push_neg at hc
      linarith
  exact ⟨key t0 a1 b1 h1, key b1 a2 b2 h2,
    fun last now h => by simp [sleepFor, h], fun last now h => by simp [sleepFor, h]⟩

theorem claim_C8_witness :
    ((0 : ℚ) + sleepFor 0 0 ≤ 2) ∧ ((2 : ℚ) + sleepFor 2 2 ≤ 2 + 2) ∧
      (2 ≤ (2 : ℚ) - 0 ∧ 2 ≤ (2 + 2 : ℚ) - 2
       ∧ (∀ last now : ℚ, now - last < 2 → sleepFor last now = 2 - (now - last))
       ∧ (∀ last now : ℚ, ¬ now - last < 2 → sleepFor last now = 0)) := by
  have hh1 : (0 : ℚ) + sleepFor 0 0 ≤ 2 := by simp [sleepFor, zero_lt_two]
  have hh2 : (2 : ℚ) + sleepFor 2 2 ≤ 2 + 2 := by simp [sleepFor, zero_lt_two]
  exact ⟨hh1, hh2, claim_C8_pacing 0 0 2 2 (2 + 2) hh1 hh2⟩

/-- Claim C9: a sentence-stage client failure is captured as the inline
error string and the iteration proceeds exactly as for a successful stage
whose response is that string; when the unguarded log write and UI
dispatch succeed, the iteration completes (no stop, no retry), logging the
substituted raw result and forwarding the extracted result to the
reconciler. -/
theorem claim_C9_sentence_error_inline (task : SentenceTask) (env : SentenceEnv) (e : Str) :
    sentenceIteration task { env with respond := .error e } =
      sentenceIteration task { env with respond := .ok (errFmt e) }
    ∧ (env.writeLogRes = .ok () → env.applyRes = .ok () →
        sentenceIteration task { env with respond := .error e } =
          .ok ⟨errFmt e, sentence_final (errFmt e),
               (task.ts14, task.lang, sentence_final (errFmt e))⟩) := by
  constructor
  · rfl
  · intro hwr hap
    simp [sentenceIteration, hwr, hap]

theorem claim_C9_witness :
    sentenceIteration ⟨[], [], toL "t", Lang.en, [], []⟩
        { respond := .error (toL "boom"), writeLogRes := .ok (), applyRes := .ok () } =
      .ok ⟨errFmt (toL "boom"), sentence_final (errFmt (toL "boom")),
           (toL "t", Lang.en, sentence_final (errFmt (toL "boom")))⟩ :=
  (claim_C9_sentence_error_inline ⟨[], [], toL "t", Lang.en, [], []⟩
      { respond := .error (toL "boom"), writeLogRes := .ok (), applyRes := .ok () }
      (toL "boom")).2 rfl rfl

/-- Claim C1: for a request submitted with the two stages en and ja (its
pending record holds the source text and no stage results), the
reconciliation appends no archive row when the first stage result arrives,
appends exactly one archive row the moment the second arrives — in either
arrival order, with the same row — and removes the pending record, so any
further call with the same request id appends nothing to the archive. -/
theorem claim_C1_reconcile (st : SentState) (ts de ten tja : Str)
    (h : st.pending ts = some ⟨de, none, none, none, none⟩) :
    ((apply_translate_result st ts .en ten).archive = st.archive)
    ∧ ((apply_translate_result st ts .ja tja).archive = st.archive)
    ∧ ((apply_translate_result (apply_translate_result st ts .en ten) ts .ja tja).archive
        = st.archive ++ [[ts, de, tja, ten, [], []]])
    ∧ ((apply_translate_result (apply_translate_result st ts .ja tja) ts .en ten).archive
        = st.archive ++ [[ts, de, tja, ten, [], []]])
    ∧ ((apply_translate_result (apply_translate_result st ts .en ten) ts .ja tja).pending ts
        = none)
    ∧ ((apply_translate_result (apply_translate_result st ts .ja tja) ts .en ten).pending ts
        = none)
    ∧ (∀ lang t2,
        (apply_translate_result
          (apply_translate_result (apply_translate_result st ts .en ten) ts .ja tja)
          ts lang t2).archive
        = (apply_translate_result (apply_translate_result st ts .en ten) ts .ja tja).archive)
    ∧ (∀ lang t2,
        (apply_translate_result
          (apply_translate_result (apply_translate_result st ts .ja tja) ts .en ten)
          ts lang t2).archive
        = (apply_translate_result (apply_translate_result st ts .ja tja) ts .en ten).archive) := by
  refine ⟨?_, ?_, ?_, ?_, ?_, ?_, ?_, ?_⟩
  · simp [apply_translate_result, h, Pending.set]
  · simp [apply_translate_result, h, Pending.set]
  · simp [apply_translate_result, h, Pending.set, orEmpty]
  · simp [apply_translate_result, h, Pending.set, orEmpty]
  · simp [apply_translate_result, h, Pending.set, orEmpty]
  · simp [apply_translate_result, h, Pending.set, orEmpty]
  · intro lang t2
    simp [apply_translate_result, h, Pending.set, orEmpty]
  · intro lang t2
    simp [apply_translate_result, h, Pending.set, orEmpty]

theorem claim_C1_witness :
    ((fun k => if k = toL "20250101000000"
        then some (⟨toL "Haus", none, none, none, none⟩ : Pending) else none) (toL "20250101000000")
      = some ⟨toL "Haus", none, none, none, none⟩)
    ∧ (((apply_translate_result
            (apply_translate_result
              ⟨fun k => if k = toL "20250101000000"
                 then some ⟨toL "Haus", none, none, none, none⟩ else none, [], []⟩
              (toL "20250101000000") .en (toL "house"))
            (toL "20250101000000") .ja (toL "ie")).archive
        = [] ++ [[toL "20250101000000", toL "Haus", toL "ie", toL "house", [], []]])) := by
  constructor
  · decide
  · exact (claim_C1_reconcile
      ⟨fun k => if k = toL "20250101000000"
         then some ⟨toL "Haus", none, none, none, none⟩ else none, [], []⟩
      (toL "20250101000000") (toL "Haus") (toL "house") (toL "ie") (by decide)).2.2.1

/-- Claim C4 (amended): inside a worker-loop iteration the client-call
failures are caught — the word worker via the total `ask_word`
substitution, the sentence worker by substituting the inline error string
— so when the word-store load and save, the raw-response log write and the
UI dispatches succeed, both iterations complete for every client-call
outcome; but those latter effects are not guarded, and their failures
propagate out of the loop body (terminating the worker thread). -/
theorem claim_C4_worker_guard (wt : WordTask) (wenv : WordEnv) (db : WordDB)
    (st : SentenceTask) (senv : SentenceEnv)
    (hl : wenv.loadRes = .ok db) (hs : wenv.saveRes = .ok ())
    (hshow : wenv.showRes = .ok ()) (href : wenv.refreshRes = .ok ())
    (hw : senv.writeLogRes = .ok ()) (ha : senv.applyRes = .ok ()) :
    isOkE (wordIteration wt wenv) = true ∧ isOkE (sentenceIteration st senv) = true := by
  constructor
  · simp only [wordIteration, hl, hs, hshow, href]
    by_cases hsk : prev_skip db wt.word = 0 <;> simp [hsk, isOkE]
  · simp [sentenceIteration, hw, ha, isOkE]

theorem claim_C4_counterexample :
    isOkE (wordIteration ⟨toL "m", toL "Haus"⟩
      { respondEn := .ok (toL "house"), respondJa := .ok (toL "ie"),
        loadRes := .ok [], saveRes := .error (toL "disk full"),
        showRes := .ok (), pngRes := .ok (), refreshRes := .ok () }) = false
    ∧ isOkE (sentenceIteration ⟨toL "m", toL "p", toL "t", Lang.en, toL "lp", toL "Haus"⟩
        { respond := .ok (toL "hi"),
          writeLogRes := .error (toL "disk full"), applyRes := .ok () }) = false := by
  constructor
  · rfl
  · rfl

theorem claim_C4_witness :
    (({ respondEn := .error (toL "conn refused"), respondJa := .error (toL "timeout"),
        loadRes := .ok [], saveRes := .ok (),
        showRes := .ok (), pngRes := .error (toL "png failed"),
        refreshRes := .ok () } : WordEnv).loadRes = .ok [])
    ∧ (isOkE (wordIteration ⟨toL "m", toL "Haus"⟩
          { respondEn := .error (toL "conn refused"), respondJa := .error (toL "timeout"),
            loadRes := .ok [], saveRes := .ok (),
            showRes := .ok (), pngRes := .error (toL "png failed"),
            refreshRes := .ok () }) = true
       ∧ isOkE (sentenceIteration ⟨toL "m", toL "p", toL "t", Lang.en, toL "lp", toL "Haus"⟩
          { respond := .error (toL "conn refused"),
            writeLogRes := .ok (), applyRes := .ok () }) = true) := by
  constructor
  · rfl
  · exact claim_C4_worker_guard ⟨toL "m", toL "Haus"⟩
      { respondEn := .error (toL "conn refused"), respondJa := .error (toL "timeout"),
        loadRes := .ok [], saveRes := .ok (),
        showRes := .ok (), pngRes := .error (toL "png failed"), refreshRes := .ok () }
      [] ⟨toL "m", toL "p", toL "t", Lang.en, toL "lp", toL "Haus"⟩
      { respond := .error (toL "conn refused"), writeLogRes := .ok (), applyRes := .ok () }
      rfl rfl rfl rfl rfl rfl

theorem mem_foldl_legacy :
    ∀ (body : List Row) (acc : WordDB) (e : Str × WRec),
      e ∈ body.foldl legacyStep acc →
      e ∈ acc ∨ ∃ row ∈ body, row ≠ [] ∧ e.1 = pyStrip (row.getD 0 []) ∧
        e.2 = ⟨[], [], legacy_count row, 0⟩ := by
  intro body
  induction body with
  | nil =>
    intro acc e h
    exact Or.inl h
  | cons row t ih =>
    intro acc e h
    simp only [List.foldl_cons] at h
    rcases ih _ e h with h2 | ⟨row2, hm, hrest⟩
    · by_cases hr : row = []
      · rw [legacyStep, if_pos hr] at h2
        exact Or.inl h2
      · rw [legacyStep, if_neg hr] at h2
        rcases mem_dbSet h2 with h3 | h3
        · exact Or.inr ⟨row, List.mem_cons_self _ _, hr, by rw [h3], by rw [h3]⟩
        · exact Or.inl h3
    · exact Or.inr ⟨row2, List.mem_cons_of_mem _ hm, hrest⟩

/-- Claim C6: an absent persisted file loads as the empty mapping, a
legacy `word,count` file loads into records with empty translations and
skip 0 whose count is the parsed field when it is all digits and 0
otherwise (no abort), and a subsequent save writes the canonical 5-column
layout: header first, every data row of length 5. -/
theorem claim_C6_legacy_load (hdr : Row) (body : List Row)
    (hh : parsedHeader hdr = [toL "word", toL "count"]) :
    load_word_db none = []
    ∧ (∀ e ∈ load_word_db (some (hdr :: body)),
        e.2.en = [] ∧ e.2.ja = [] ∧ e.2.skip = 0
        ∧ ∃ row ∈ body, row ≠ [] ∧ e.1 = pyStrip (row.getD 0 [])
            ∧ e.2.count = legacy_count row)
    ∧ (save_word_db (load_word_db (some (hdr :: body)))).head? = some WORD_HEADER
    ∧ (∀ r ∈ (save_word_db (load_word_db (some (hdr :: body)))).tail, r.length = 5) := by
  have hload : load_word_db (some (hdr :: body)) = body.foldl legacyStep [] := by
    simp [load_word_db, hh]
  refine ⟨rfl, ?_, rfl, ?_⟩
  · intro e he
    rw [hload] at he
    rcases mem_foldl_legacy body [] e he with h2 | ⟨row, hm, hne, h1, h2⟩
    · simp at h2
    · exact ⟨by rw [h2], by rw [h2], by rw [h2], row, hm, hne, h1, by rw [h2]⟩
  · intro r hr
    simp only [save_word_db, List.tail_cons] at hr
    rcases List.mem_map.mp hr with ⟨e, _, he⟩
    rw [← he]
    rfl

theorem claim_C6_witness :
    parsedHeader [toL "word", toL "count"] = [toL "word", toL "count"]
    ∧ (load_word_db none = []
       ∧ (∀ e ∈ load_word_db (some ([toL "word", toL "count"] ::
              [[toL "Haus", toL "abc"], [toL "Auto", toL "2"]])),
           e.2.en = [] ∧ e.2.ja = [] ∧ e.2.skip = 0
           ∧ ∃ row ∈ [[toL "Haus", toL "abc"], [toL "Auto", toL "2"]],
               row ≠ [] ∧ e.1 = pyStrip (row.getD 0 [])
               ∧ e.2.count = legacy_count row)
       ∧ (save_word_db (load_word_db (some ([toL "word", toL "count"] ::
            [[toL "Haus", toL "abc"], [toL "Auto", toL "2"]])))).head? = some WORD_HEADER
       ∧ (∀ r ∈ (save_word_db (load_word_db (some ([toL "word", toL "count"] ::
            [[toL "Haus", toL "abc"], [toL "Auto", toL "2"]])))).tail, r.length = 5)) :=
  ⟨by decide,
   claim_C6_legacy_load [toL "word", toL "count"]
     [[toL "Haus", toL "abc"], [toL "Auto", toL "2"]] (by decide)⟩

/-- The ordering the spec promises for persisted rows: count descending,
then word ascending (strictly, for distinct words). -/
def countWordOrder (a b : Str × WRec) : Prop :=
  b.2.count < a.2.count ∨ (a.2.count = b.2.count ∧ strLtB a.1 b.1 = true)

instance : DecidableRel countWordOrder :=
  fun a b => inferInstanceAs
    (Decidable (b.2.count < a.2.count ∨ (a.2.count = b.2.count ∧ strLtB a.1 b.1 = true)))

/-- Claim C7: for a mapping (distinct words), save writes the canonical
5-field header as the first row, then exactly one row per word — the rows
are the images under `rowOf`, which lays out word, en, ja, stringified
integer count and stringified integer skip — in an order that is a
permutation of the mapping sorted by count descending then word
ascending. -/
theorem claim_C7_save_sorted (db : WordDB) (hnd : (db.map Prod.fst).Nodup) :
    ∃ l : WordDB, save_word_db db = WORD_HEADER :: l.map rowOf
      ∧ l.Perm db ∧ l.Pairwise countWordOrder
      ∧ (l.map Prod.fst).Perm (db.map Prod.fst) := by
  have hperm : (sortDB db).Perm db := List.perm_insertionSort entryLe db
  refine ⟨sortDB db, rfl, hperm, ?_, hperm.map Prod.fst⟩
  have hsorted : List.Sorted entryLe (sortDB db) := List.sorted_insertionSort entryLe db
  have hnedb : List.Pairwise (fun a b : Str × WRec => a.1 ≠ b.1) db := by
    rw [← List.pairwise_map]
    exact hnd
  have hnes : List.Pairwise (fun a b : Str × WRec => a.1 ≠ b.1) (sortDB db) :=
    (hperm.pairwise_iff (fun h => Ne.symm h)).mpr hnedb
  have hand := hsorted.and hnes
  refine hand.imp ?_
  intro a b hab
  obtain ⟨hle, hneq⟩ := hab
  rcases keyLeB_iff.mp hle with h | ⟨hc, hs⟩
  · exact Or.inl h
  · rcases hs with hs | hs
    · exact Or.inr ⟨hc, hs⟩
    · exact absurd hs hneq

theorem claim_C7_witness :
    (([(toL "B", ({ en := [], ja := [], count := 1, skip := 0 } : WRec)),
       (toL "A", { en := [], ja := [], count := 2, skip := 1 })].map Prod.fst).Nodup)
    ∧ (∃ l : WordDB,
        save_word_db [(toL "B", { en := [], ja := [], count := 1, skip := 0 }),
                      (toL "A", { en := [], ja := [], count := 2, skip := 1 })] =
          WORD_HEADER :: l.map rowOf
        ∧ l.Perm [(toL "B", { en := [], ja := [], count := 1, skip := 0 }),
                  (toL "A", { en := [], ja := [], count := 2, skip := 1 })]
        ∧ l.Pairwise countWordOrder
        ∧ (l.map Prod.fst).Perm
            ([(toL "B", ({ en := [], ja := [], count := 1, skip := 0 } : WRec)),
              (toL "A", { en := [], ja := [], count := 2, skip := 1 })].map Prod.fst)) :=
  ⟨by decide, claim_C7_save_sorted _ (by decide)⟩

-- ---------- lemmas for the skip-toggle frame claim ----------

theorem map_eq_self_of {f : (Str × WRec) → (Str × WRec)} :
    ∀ {l : WordDB}, (∀ e ∈ l, f e = e) → l.map f = l := by
  intro l
  induction l with
  | nil => intro _; rfl
  | cons e t ih =>
    intro h
    simp only [List.map_cons, h e (List.mem_cons_self _ _),
      ih (fun e2 he2 => h e2 (List.mem_cons_of_mem _ he2))]

theorem dbSet_eq_map {word : Str} {info r : WRec} :
    ∀ {db : WordDB}, (db.map Prod.fst).Nodup → dbGet word db = some info →
      dbSet word r db = db.map (fun e => if e.1 = word then (word, r) else e) := by
  intro db
  induction db with
  | nil => intro _ hget; exact absurd hget (by simp [dbGet])
  | cons e t ih =>
    obtain ⟨w2, r2⟩ := e
    intro hnd hget
    simp only [List.map_cons, List.nodup_cons] at hnd
    by_cases h : w2 = word
    · subst h
      have htid : t.map (fun e => if e.1 = w2 then (w2, r) else e) = t := by
        apply map_eq_self_of
        intro e2 he2
        have hne : e2.1 ≠ w2 := by
          intro hq
          exact hnd.1 (hq ▸ List.mem_map.mpr ⟨e2, he2, rfl⟩)
        simp [hne]
      simp [dbSet, htid]
    · have hget2 : dbGet word t = some info := by
        rw [dbGet, if_neg h] at hget
        exact hget
      simp only [dbSet, if_neg h, List.map_cons]
      rw [ih hnd.2 hget2]

theorem entryLe_iff_of_key_eq {a a2 b b2 : Str × WRec}
    (ha1 : a2.1 = a.1) (hac : a2.2.count = a.2.count)
    (hb1 : b2.1 = b.1) (hbc : b2.2.count = b.2.count) :
    entryLe a b ↔ entryLe a2 b2 := by
  unfold entryLe keyLeB
  rw [ha1, hac, hb1, hbc]

theorem zip_same {α : Type} : ∀ (l : List α), l.zip l = l.map (fun a => (a, a)) := by
  intro l
  induction l with
  | nil => rfl
  | cons a t ih => simp [List.zip_cons_cons, ih]

/-- Claim C10: toggling the skip flag of a word W present in the store
flips only the skip field of W between 0 and 1 (given a well-formed flag)
and leaves the en, ja and count fields of W and the records of all other
words unchanged; in the persisted rows, the header and every data row of
another word are unchanged and the data row of W changes only its fifth
field. -/
theorem claim_C10_toggle_frame (db : WordDB) (word : Str) (info : WRec)
    (hnd : (db.map Prod.fst).Nodup) (hget : dbGet word db = some info) :
    dbGet word (on_toggle_skip db word) =
      some ⟨info.en, info.ja, info.count, flip_skip info.skip⟩
    ∧ (info.skip = 0 ∨ info.skip = 1 →
        flip_skip info.skip = 1 - info.skip
        ∧ (flip_skip info.skip = 0 ∨ flip_skip info.skip = 1))
    ∧ (∀ w2, w2 ≠ word → dbGet w2 (on_toggle_skip db word) = dbGet w2 db)
    ∧ (save_word_db (on_toggle_skip db word)).length = (save_word_db db).length
    ∧ (save_word_db (on_toggle_skip db word)).head? = some WORD_HEADER
    ∧ (∀ p ∈ ((save_word_db db).tail).zip ((save_word_db (on_toggle_skip db word)).tail),
        (p.1.getD 0 [] ≠ word → p.2 = p.1)
        ∧ (p.1.getD 0 [] = word →
            p.2 = p.1.take 4 ++ [pyStrInt (flip_skip info.skip)])) := by
  set nr : WRec := ⟨info.en, info.ja, info.count, flip_skip info.skip⟩ with hnr
  set f : (Str × WRec) → (Str × WRec) :=
    fun e => if e.1 = word then (word, nr) else e with hf
  have hdb2 : on_toggle_skip db word = dbSet word nr db := by
    rw [on_toggle_skip, hget]
  have hmap : on_toggle_skip db word = db.map f := by
    rw [hdb2]
    exact dbSet_eq_map hnd hget
  have hval : ∀ e ∈ db, e.1 = word → e.2 = info := by
    intro e he h1
    have h3 : dbGet e.1 db = some e.2 := dbGet_of_mem_nodup hnd he
    rw [h1, hget] at h3
    exact (Option.some.injEq _ _ ▸ h3).symm
  have hkey : ∀ e : Str × WRec, e ∈ db → (f e).1 = e.1 ∧ (f e).2.count = e.2.count := by
    intro e he
    by_cases h1 : e.1 = word
    · have h2 := hval e he h1
      simp [hf, h1, hnr, h2]
    · simp [hf, h1]
  have hiff : ∀ a ∈ db, ∀ b ∈ db, entryLe a b ↔ entryLe (f a) (f b) := by
    intro a ha b hb
    exact entryLe_iff_of_key_eq (hkey a ha).1 (hkey a ha).2 (hkey b hb).1 (hkey b hb).2
  have hsort : (sortDB db).map f = sortDB (db.map f) :=
    List.map_insertionSort entryLe entryLe f db hiff
  refine ⟨?_, ?_, ?_, ?_, ?_, ?_⟩
  · rw [hdb2]
    exact dbGet_dbSet_self word nr db
  · rintro (h | h) <;> norm_num [flip_skip, h]
  · intro w2 hne
    rw [hdb2]
    exact dbGet_dbSet_ne word w2 nr hne db
  · rw [hmap]
    simp [save_word_db, sortDB]
  · rw [hmap]
    rfl
  · have htail2 : (save_word_db (on_toggle_skip db word)).tail =
        (sortDB db).map (fun e => rowOf (f e)) := by
      rw [hmap]
      simp only [save_word_db, List.tail_cons, sortDB]
      rw [show List.insertionSort entryLe (db.map f) = sortDB (db.map f) from rfl, ← hsort,
        List.map_map]
      rfl
    have htail1 : (save_word_db db).tail = (sortDB db).map rowOf := rfl
    intro p hp
    rw [htail1, htail2, List.zip_map, zip_same, List.map_map] at hp
    obtain ⟨e, he, hpe⟩ := List.mem_map.mp hp
    have hedb : e ∈ db := by
      have : e ∈ sortDB db := he
      simpa [sortDB] using this
    subst hpe
    by_cases h1 : e.1 = word
    · have he2 : e.2 = info := hval e hedb h1
      constructor
      · intro hcontra
        exact absurd (show (Prod.map rowOf (fun e => rowOf (f e)) ((fun a => (a, a)) e)).1.getD 0 []
          = word by simp [rowOf, h1]) hcontra
      · intro _
        simp [rowOf, hf, h1, hnr, he2]
    · constructor
      · intro _
        simp [rowOf, hf, h1]
      · intro hcontra
        exact absurd (by simpa [rowOf] using hcontra) h1

theorem claim_C10_witness :
    (([(toL "A", ({ en := toL "a", ja := toL "b", count := 2, skip := 1 } : WRec)),
       (toL "B", { en := [], ja := [], count := 1, skip := 0 })].map Prod.fst).Nodup)
    ∧ dbGet (toL "A")
        [(toL "A", { en := toL "a", ja := toL "b", count := 2, skip := 1 }),
         (toL "B", { en := [], ja := [], count := 1, skip := 0 })] =
        some { en := toL "a", ja := toL "b", count := 2, skip := 1 }
    ∧ (dbGet (toL "A") (on_toggle_skip
          [(toL "A", { en := toL "a", ja := toL "b", count := 2, skip := 1 }),
           (toL "B", { en := [], ja := [], count := 1, skip := 0 })] (toL "A")) =
        some ⟨toL "a", toL "b", 2,
          flip_skip ({ en := toL "a", ja := toL "b", count := 2, skip := 1 } : WRec).skip⟩
       ∧ (({ en := toL "a", ja := toL "b", count := 2, skip := 1 } : WRec).skip = 0
            ∨ ({ en := toL "a", ja := toL "b", count := 2, skip := 1 } : WRec).skip = 1 →
           flip_skip ({ en := toL "a", ja := toL "b", count := 2, skip := 1 } : WRec).skip =
             1 - ({ en := toL "a", ja := toL "b", count := 2, skip := 1 } : WRec).skip
           ∧ (flip_skip ({ en := toL "a", ja := toL "b", count := 2, skip := 1 } : WRec).skip = 0
              ∨ flip_skip ({ en := toL "a", ja := toL "b", count := 2, skip := 1 } : WRec).skip = 1))
       ∧ (∀ w2, w2 ≠ toL "A" →
           dbGet w2 (on_toggle_skip
             [(toL "A", { en := toL "a", ja := toL "b", count := 2, skip := 1 }),
              (toL "B", { en := [], ja := [], count := 1, skip := 0 })] (toL "A")) =
           dbGet w2
             [(toL "A", { en := toL "a", ja := toL "b", count := 2, skip := 1 }),
              (toL "B", { en := [], ja := [], count := 1, skip := 0 })])
       ∧ (save_word_db (on_toggle_skip
            [(toL "A", { en := toL "a", ja := toL "b", count := 2, skip := 1 }),
             (toL "B", { en := [], ja := [], count := 1, skip := 0 })] (toL "A"))).length =
          (save_word_db
            [(toL "A", { en := toL "a", ja := toL "b", count := 2, skip := 1 }),
             (toL "B", { en := [], ja := [], count := 1, skip := 0 })]).length
       ∧ (save_word_db (on_toggle_skip
            [(toL "A", { en := toL "a", ja := toL "b", count := 2, skip := 1 }),
             (toL "B", { en := [], ja := [], count := 1, skip := 0 })] (toL "A"))).head? =
          some WORD_HEADER
       ∧ (∀ p ∈ ((save_word_db
              [(toL "A", { en := toL "a", ja := toL "b", count := 2, skip := 1 }),
               (toL "B", { en := [], ja := [], count := 1, skip := 0 })]).tail).zip
            ((save_word_db (on_toggle_skip
              [(toL "A", { en := toL "a", ja := toL "b", count := 2, skip := 1 }),
               (toL "B", { en := [], ja := [], count := 1, skip := 0 })] (toL "A"))).tail),
           (p.1.getD 0 [] ≠ toL "A" → p.2 = p.1)
           ∧ (p.1.getD 0 [] = toL "A" →
               p.2 = p.1.take 4 ++
                 [pyStrInt (flip_skip
                   ({ en := toL "a", ja := toL "b", count := 2, skip := 1 } : WRec).skip)]))) :=
  ⟨by decide, by decide,
   claim_C10_toggle_frame
     [(toL "A", { en := toL "a", ja := toL "b", count := 2, skip := 1 }),
      (toL "B", { en := [], ja := [], count := 1, skip := 0 })]
     (toL "A") { en := toL "a", ja := toL "b", count := 2, skip := 1 }
     (by decide) (by decide)⟩

/-- Claim C5 (amended): when some recognized final-message marker occurs
in the raw response, extraction returns the content after the occurrence
with the greatest end position, with leading bracketed control tokens
stripped and whitespace trimmed; when no marker occurs, the raw text is
returned with leading bracketed control tokens likewise stripped and
trimmed (not verbatim); the sentence pipeline falls back to the trimmed
raw text on empty extraction and uses the extraction otherwise; the word
pipeline returns the extraction unchanged — in particular the empty
string, not the trimmed raw text, when the extraction is empty. -/
theorem claim_C5_extraction (s raw : Str) (i : Nat) (t : Str)
    (ht : t ∈ TOKENS) (hocc : subAt s t i = true)
    (hmax : ∀ j, j < s.length → ∀ u ∈ TOKENS, subAt s u j = true →
      j + u.length ≤ i + t.length) :
    extract_final_message_only s = pyStrip (stripCtl (s.drop (i + t.length)))
    ∧ ((∀ j, j < raw.length → ∀ u ∈ TOKENS, subAt raw u j = false) →
        extract_final_message_only raw = pyStrip (stripCtl raw))
    ∧ (extract_final_message_only raw = [] → sentence_final raw = pyStrip raw)
    ∧ (extract_final_message_only raw ≠ [] →
        sentence_final raw = extract_final_message_only raw)
    ∧ (∀ r : Str, ask_word (.ok r) = extract_final_message_only r)
    ∧ (∀ e : Str, ask_word (.error e) = extract_final_message_only (errFmt e)) := by
  refine ⟨?_, ?_, ?_, ?_, ?_, ?_⟩
  · -- a marker occurs; the loop endpoint agrees with the maximal-end occurrence
    have hcases : t = toL "final<|message|>" ∨ t = toL "<|channel|>final<|message|>"
        ∨ t = toL "<|start|>assistant<|channel|>final<|message|>" := by
      simpa [TOKENS] using ht
    have hstep : ∃ d : Nat, subAt s (toL "final<|message|>") (i + d) = true
        ∧ t.length = d + 16 := by
      rcases hcases with hc | hc | hc
      · subst hc
        exact ⟨0, by simpa using hocc, by decide⟩
      · subst hc
        refine ⟨11, ?_, by decide⟩
        have hsplit : toL "<|channel|>final<|message|>" =
            toL "<|channel|>" ++ toL "final<|message|>" := by decide
        have h2 := subAt_suffix (hsplit ▸ hocc)
        simpa using h2
      · subst hc
        refine ⟨29, ?_, by decide⟩
        have hsplit : toL "<|start|>assistant<|channel|>final<|message|>" =
            toL "<|start|>assistant<|channel|>" ++ toL "final<|message|>" := by decide
        have h2 := subAt_suffix (hsplit ▸ hocc)
        simpa using h2
    obtain ⟨d, hocc1, hlen⟩ := hstep
    cases hr : pyRfind s (toL "final<|message|>") with
    | none =>
      have := pyRfind_none (t := toL "final<|message|>") (by decide) hr (i + d)
      rw [this] at hocc1
      exact Bool.noConfusion hocc1
    | some k =>
      obtain ⟨hocck, hmaxk⟩ := pyRfind_some (t := toL "final<|message|>") (by decide) hr
      have hklen : k + 16 ≤ s.length := by
        have := subAt_le_length (t := toL "final<|message|>") (by decide) hocck
        simpa using this
      have hle1 : i + d ≤ k := by
        by_contra hcon
        push_neg at hcon
        have := hmaxk (i + d) hcon
        rw [this] at hocc1
        exact Bool.noConfusion hocc1
      have hle2 : k + 16 ≤ i + t.length := by
        have := hmax k (by omega) (toL "final<|message|>") (by simp [TOKENS]) hocck
        simpa using this
      have heq : i + t.length = k + 16 := by omega
      rw [extract_eq_some hr, heq]
  · intro hnone
    cases hr : pyRfind raw (toL "final<|message|>") with
    | none => exact extract_eq_none hr
    | some k =>
      obtain ⟨hocck, _⟩ := pyRfind_some (t := toL "final<|message|>") (by decide) hr
      have hklen : k + 16 ≤ raw.length := by
        have := subAt_le_length (t := toL "final<|message|>") (by decide) hocck
        simpa using this
      have := hnone k (by omega) (toL "final<|message|>") (by simp [TOKENS])
      rw [this] at hocck
      exact Bool.noConfusion hocck
  · intro h
    simp [sentence_final, h]
  · intro h
    simp [sentence_final, h]
  · intro r
    by_cases h : extract_final_message_only r = [] <;> simp [ask_word, h]
  · intro e
    by_cases h : extract_final_message_only (errFmt e) = [] <;> simp [ask_word, h]

theorem claim_C5_counterexample :
    (∀ u ∈ TOKENS, ∀ j, j < (toL "<|x|>hello").length → subAt (toL "<|x|>hello") u j = false)
    ∧ extract_final_message_only (toL "<|x|>hello") = toL "hello"
    ∧ pyStrip (toL "<|x|>hello") = toL "<|x|>hello"
    ∧ toL "hello" ≠ toL "<|x|>hello"
    ∧ ask_word (.ok (toL "x final<|message|>")) = []
    ∧ pyStrip (toL "x final<|message|>") = toL "x final<|message|>"
    ∧ toL "x final<|message|>" ≠ [] := by
  decide

theorem claim_C5_witness :
    (toL "final<|message|>" ∈ TOKENS)
    ∧ subAt (toL "a final<|message|> <|c|> hi ") (toL "final<|message|>") 2 = true
    ∧ (∀ j, j < (toL "a final<|message|> <|c|> hi ").length → ∀ u ∈ TOKENS,
        subAt (toL "a final<|message|> <|c|> hi ") u j = true →
        j + u.length ≤ 2 + (toL "final<|message|>").length)
    ∧ (extract_final_message_only (toL "a final<|message|> <|c|> hi ") =
        pyStrip (stripCtl ((toL "a final<|message|> <|c|> hi ").drop
          (2 + (toL "final<|message|>").length)))
       ∧ ((∀ j, j < (toL " <|b|>x ").length → ∀ u ∈ TOKENS,
             subAt (toL " <|b|>x ") u j = false) →
           extract_final_message_only (toL " <|b|>x ") = pyStrip (stripCtl (toL " <|b|>x ")))
       ∧ (extract_final_message_only (toL " <|b|>x ") = [] →
           sentence_final (toL " <|b|>x ") = pyStrip (toL " <|b|>x "))
       ∧ (extract_final_message_only (toL " <|b|>x ") ≠ [] →
           sentence_final (toL " <|b|>x ") = extract_final_message_only (toL " <|b|>x "))
       ∧ (∀ r : Str, ask_word (.ok r) = extract_final_message_only r)
       ∧ (∀ e : Str, ask_word (.error e) = extract_final_message_only (errFmt e))) :=
  ⟨by decide, by decide, by decide,
   claim_C5_extraction (toL "a final<|message|> <|c|> hi ") (toL " <|b|>x ") 2
     (toL "final<|message|>") (by decide) (by decide) (by decide)⟩

-- ---------- round-trip lemmas for the word store ----------

/-- Entries whose persisted row parses back unchanged: the word and both
translations carry no surrounding whitespace, and the skip flag is the
boolean 0 or 1 of the data model. -/
abbrev CleanEntry (e : Str × WRec) : Prop :=
  pyStrip e.1 = e.1 ∧ pyStrip e.2.en = e.2.en ∧ pyStrip e.2.ja = e.2.ja
  ∧ (e.2.skip = 0 ∨ e.2.skip = 1)

theorem fourColStep_rowOf {e : Str × WRec} (db : WordDB) (hclean : CleanEntry e) :
    fourColStep db (rowOf e) = dbSet e.1 e.2 db := by
  obtain ⟨h1, h2, h3, h4⟩ := hclean
  have hg : pyStrInt e.2.skip = toL "0" ∨ pyStrInt e.2.skip = toL "1" := by
    rcases h4 with h4 | h4 <;> rw [h4]
    · exact Or.inl (by decide)
    · exact Or.inr (by decide)
  simp [fourColStep, rowOf, h1, h2, h3, hg, pyInt_pyStrInt]

theorem foldl_fourCol_clean :
    ∀ (l : WordDB) (acc : WordDB), (∀ e ∈ l, CleanEntry e) →
      (l.map rowOf).foldl fourColStep acc =
        l.foldl (fun db e => dbSet e.1 e.2 db) acc := by
  intro l
  induction l with
  | nil => intro acc _; rfl
  | cons e t ih =>
    intro acc hcl
    simp only [List.map_cons, List.foldl_cons]
    rw [fourColStep_rowOf acc (hcl e (List.mem_cons_self _ _))]
    exact ih _ (fun e2 he2 => hcl e2 (List.mem_cons_of_mem _ he2))

theorem load_save_eq_sortDB (M : WordDB) (hnd : (M.map Prod.fst).Nodup)
    (hcl : ∀ e ∈ M, CleanEntry e) :
    load_word_db (some (save_word_db M)) = sortDB M := by
  have hstep : load_word_db (some (save_word_db M)) =
      ((sortDB M).map rowOf).foldl fourColStep [] := by
    show load_word_db (some (WORD_HEADER :: (sortDB M).map rowOf)) = _
    simp only [load_word_db]
    rw [show parsedHeader WORD_HEADER = WORD_HEADER from by decide]
    rw [if_neg (by decide), if_pos (by decide)]
  rw [hstep]
  have hclean2 : ∀ e ∈ sortDB M, CleanEntry e := by
    intro e he
    exact hcl e (by simpa [sortDB] using he)
  have hnd2 : ((sortDB M).map Prod.fst).Nodup := by
    have hperm := (List.perm_insertionSort entryLe M).map Prod.fst
    exact (hperm.nodup_iff).mpr hnd
  rw [foldl_fourCol_clean (sortDB M) [] hclean2]
  rw [foldl_dbSet_fresh (sortDB M) [] hnd2 (fun w _ hw => (List.not_mem_nil w) hw)]
  simp

/-- Claim C3 (amended): for every mapping whose words are distinct and
whose entries are clean — word and translations strip-fixed, skip flag 0
or 1 — re-serializing the re-parsed persisted form reproduces the
persisted rows exactly: `save (load (save M)) = save M`.  (Counts may be
any integers.) -/
theorem claim_C3_roundtrip (M : WordDB) (hnd : (M.map Prod.fst).Nodup)
    (hcl : ∀ e ∈ M, CleanEntry e) :
    save_word_db (load_word_db (some (save_word_db M))) = save_word_db M := by
  rw [load_save_eq_sortDB M hnd hcl]
  unfold save_word_db
  have hsorted : List.Sorted entryLe (sortDB M) := List.sorted_insertionSort entryLe M
  have hfix : sortDB (sortDB M) = sortDB M := hsorted.insertionSort_eq
  rw [hfix]

theorem claim_C3_counterexample :
    save_word_db (load_word_db (some (save_word_db
        [(toL "W", { en := toL " x", ja := [], count := 1, skip := 0 })])))
      ≠ save_word_db [(toL "W", { en := toL " x", ja := [], count := 1, skip := 0 })]
    ∧ save_word_db (load_word_db (some (save_word_db
        [(toL "V", { en := [], ja := [], count := 1, skip := 2 })])))
      ≠ save_word_db [(toL "V", { en := [], ja := [], count := 1, skip := 2 })]
    ∧ save_word_db (load_word_db (some (save_word_db
        [(toL " W", { en := [], ja := [], count := 1, skip := 0 })])))
      ≠ save_word_db [(toL " W", { en := [], ja := [], count := 1, skip := 0 })] := by
  decide

theorem claim_C3_witness :
    (([(toL "Haus", ({ en := toL "house", ja := toL "ie", count := 2, skip := 1 } : WRec)),
       (toL "Auto", { en := [], ja := [], count := 5, skip := 0 })].map Prod.fst).Nodup)
    ∧ (∀ e ∈ [(toL "Haus", ({ en := toL "house", ja := toL "ie", count := 2, skip := 1 } : WRec)),
              (toL "Auto", { en := [], ja := [], count := 5, skip := 0 })], CleanEntry e)
    ∧ save_word_db (load_word_db (some (save_word_db
        [(toL "Haus", { en := toL "house", ja := toL "ie", count := 2, skip := 1 }),
         (toL "Auto", { en := [], ja := [], count := 5, skip := 0 })]))) =
      save_word_db
        [(toL "Haus", { en := toL "house", ja := toL "ie", count := 2, skip := 1 }),
         (toL "Auto", { en := [], ja := [], count := 5, skip := 0 })] :=
  ⟨by decide, by decide,
   claim_C3_roundtrip
     [(toL "Haus", { en := toL "house", ja := toL "ie", count := 2, skip := 1 }),
      (toL "Auto", { en := [], ja := [], count := 5, skip := 0 })]
     (by decide) (by decide)⟩
